import Mathlib

/-!
Shallow embedding of the skill-inference and question-selection engine of
`backend/resume_analyzer.py` (class `ResumeAnalyzer`), together with proofs
about its behaviour.

External capabilities (the Ollama completion calls, PDF text extraction) are
modelled as parameters/oracles: the value an external call would return is an
input of the embedded function, and universally quantifying over it covers
every run of the Python code.  `random.choice` over a non-empty list `l` is
modelled by an oracle value `r : Nat` indexing `l` at `r % l.length`; every
outcome of the uniform choice corresponds to some `r`, and conversely.
Strings are Unicode in both languages; `Char.toLower` models `str.lower` on
the ASCII data the analyzer manipulates.
-/

set_option autoImplicit false

/-- One entry of the question bank JSON: `{skill, displayName, levels}` where
`levels` maps a level name to the list of question strings.  Python stores
`levels` as a dict; it is embedded as an association list. -/
structure QuestionBankEntry where
  skill : String
  displayName : String
  levels : List (String × List String)
deriving DecidableEq

/-- Python `d.get(k, default)` on a dict embedded as an association list.
Python dicts are insertion ordered with last-write-wins on duplicate keys,
so lookup takes the last binding. -/
def dictGet {α : Type} (d : List (String × α)) (k : String) (dflt : α) : α :=
  match d.reverse.find? (fun p => p.1 == k) with
  | some p => p.2
  | none => dflt

/-- `question_bank_dict = {e["skill"]: e for e in self.question_bank}` followed
by lookup: the last entry with the given skill key wins, `none` when the key
is absent (Python `skill_key not in question_bank_dict`). -/
def bankLookup (bank : List QuestionBankEntry) (key : String) : Option QuestionBankEntry :=
  bank.reverse.find? (fun e => e.skill == key)

/-- The bank's question list for `(skillKey, level)`: `[]` when the skill key
is absent from the bank or its list for that level is missing
(`skill_entry["levels"].get(level, [])`). -/
def bankQuestions (bank : List QuestionBankEntry) (key level : String) : List String :=
  match bankLookup bank key with
  | some e => dictGet e.levels level []
  | none => []

/-- `self.question_usage`, a `defaultdict(list)` keyed by `(skill, level)`,
embedded as a total function with default `[]` (observationally equal to the
Python dict: reading a missing key yields the fresh empty list). -/
def Usage : Type := String × String → List Nat

/-- Fresh rotation state: no key has any recorded selection. -/
def emptyUsage : Usage := fun _ => []

/-- Point update of the usage map (`self.question_usage[usage_key] = v`). -/
def updateUsage (u : Usage) (key : String × String) (v : List Nat) : Usage :=
  fun k => if k = key then v else u k

/-- Python slice `l[-n:]`: the last `min n (length l)` elements. -/
def lastN (l : List Nat) (n : Nat) : List Nat := l.drop (l.length - n)

/-- Python `enumerate`, starting at index `i`. -/
def pyEnumFrom {α : Type} (i : Nat) : List α → List (Nat × α)
  | [] => []
  | a :: as => (i, a) :: pyEnumFrom (i + 1) as

/-- Python `enumerate(l)`. -/
def pyEnum {α : Type} (l : List α) : List (Nat × α) := pyEnumFrom 0 l

/-- The guard `exclude_question and question == exclude_question`: Python
truthiness makes `None` and the empty string both skip the exclusion. -/
def excludeHit (exclude : Option String) (q : String) : Bool :=
  match exclude with
  | none => false
  | some s => !s.isEmpty && q == s

/-- Truthiness of the `exclude_question` argument itself (`if exclude_question ...`). -/
def excludeTruthy (exclude : Option String) : Bool :=
  match exclude with
  | none => false
  | some s => !s.isEmpty

/-- Embedding of `ResumeAnalyzer._get_next_question_from_bank`.
`r` is the oracle value for `random.choice(available_indices)`;
the selected pair is `available_indices[r % len(available_indices)]`.
Returns the selected question (or `None`) and the updated usage map. -/
def get_next_question_from_bank (bank : List QuestionBankEntry) (usage : Usage) (r : Nat)
    (skill_key level : String) (exclude_question : Option String) :
    Option String × Usage :=
  match bankLookup bank skill_key with
  | none => (none, usage)
  | some skill_entry =>
    let level_questions := dictGet skill_entry.levels level []
    if level_questions = [] then (none, usage)
    else
      let usage_key := (skill_key, level)
      let used_indices := usage usage_key
      -- MAX_REPEATS = 10: a question is filtered out only when it fills the
      -- whole 10-selection lookback window.
      let available₁ := (pyEnum level_questions).filter
        (fun p => !excludeHit exclude_question p.2 &&
          decide ((lastN used_indices 10).count p.1 < 10))
      -- Reset branch: drop the recent-use filter, and clear the history once
      -- its length has reached the window size.
      let available := if available₁ = [] then
          (pyEnum level_questions).filter (fun p => !excludeHit exclude_question p.2)
        else available₁
      let base := if available₁ = [] ∧ 10 ≤ used_indices.length then [] else used_indices
      if available ≠ [] then
        let chosen := available.getD (r % available.length) (0, "")
        (some chosen.2, updateUsage usage usage_key (base ++ [chosen.1]))
      else
        -- Fallback: first question, or second when the first is excluded.
        let q := if excludeTruthy exclude_question ∧
            some (level_questions.getD 0 "") = exclude_question ∧ 1 < level_questions.length
          then level_questions.getD 1 "" else level_questions.getD 0 ""
        (some q, updateUsage usage usage_key base)

/-- A generated interview question record `{skill, level, question, solution}`. -/
structure GenQuestion where
  skill : String
  level : String
  question : String
  solution : Option String
deriving DecidableEq

/-- A detected skill record as produced by `detect_skills`
(`{key, name, variant, level}`; the AI branch stores a context string instead
of a variant, which no embedded claim inspects). -/
structure DetectedSkillR where
  key : String
  name : String
  variant : String
  level : String
deriving DecidableEq

/-- First backfill loop of `generate_questions`: one bank question per
detected skill not yet represented, at the skill's own level, stopping at 5.
State: (questions, skills_with_questions, usage, random-oracle counter).
The Python `set` of skills is embedded as a list used only via membership. -/
def gqLoop1 (bank : List QuestionBankEntry) (useOllama : Bool)
    (sol : String → String → String → Option String) (ρ : Nat → Nat) :
    List DetectedSkillR → List GenQuestion × List String × Usage × Nat →
    List GenQuestion × List String × Usage × Nat
  | [], st => st
  | s :: rest, (qs, sw, u, t) =>
    if 5 ≤ qs.length then (qs, sw, u, t)
    else if sw.contains s.key then gqLoop1 bank useOllama sol ρ rest (qs, sw, u, t)
    else if (bankLookup bank s.key).isSome = false then
      gqLoop1 bank useOllama sol ρ rest (qs, sw, u, t)
    else
      match get_next_question_from_bank bank u (ρ t) s.key s.level none with
      | (some qt, u') =>
          -- `if question_text:` — Python truthiness drops an empty string too
          if qt.isEmpty then gqLoop1 bank useOllama sol ρ rest (qs, sw, u', t + 1)
          else
            gqLoop1 bank useOllama sol ρ rest
              (qs ++ [⟨s.key, s.level, qt, if useOllama then sol qt s.key s.level else none⟩],
               sw ++ [s.key], u', t + 1)
      | (none, u') => gqLoop1 bank useOllama sol ρ rest (qs, sw, u', t + 1)

/-- Second backfill loop of `generate_questions`: intermediate-level questions
for still-unrepresented skills until 3 questions exist. -/
def gqLoop2 (bank : List QuestionBankEntry) (useOllama : Bool)
    (sol : String → String → String → Option String) (ρ : Nat → Nat) :
    List DetectedSkillR → List GenQuestion × List String × Usage × Nat →
    List GenQuestion × List String × Usage × Nat
  | [], st => st
  | s :: rest, (qs, sw, u, t) =>
    if 3 ≤ qs.length then (qs, sw, u, t)
    else if (bankLookup bank s.key).isSome = false then
      gqLoop2 bank useOllama sol ρ rest (qs, sw, u, t)
    else if sw.contains s.key then gqLoop2 bank useOllama sol ρ rest (qs, sw, u, t)
    else
      match get_next_question_from_bank bank u (ρ t) s.key "intermediate" none with
      | (some qt, u') =>
          -- `if question_text:` — Python truthiness drops an empty string too
          if qt.isEmpty then gqLoop2 bank useOllama sol ρ rest (qs, sw, u', t + 1)
          else
            gqLoop2 bank useOllama sol ρ rest
              (qs ++ [⟨s.key, "intermediate", qt,
                if useOllama then sol qt s.key "intermediate" else none⟩],
               sw ++ [s.key], u', t + 1)
      | (none, u') => gqLoop2 bank useOllama sol ρ rest (qs, sw, u', t + 1)

/-- Embedding of `ResumeAnalyzer.generate_questions`.
`aiQuestions` is the value the AI path (`generate_questions_with_ollama`)
would return, flattened so that both a `None` return and an empty list are
`[]`; it is only consulted when `use_ollama` holds and a resume text was
passed (`hasResume`).  `sol` is the oracle for
`generate_solution_with_ollama` (already including its `None`-on-error
behaviour). -/
def gqCore (bank : List QuestionBankEntry) (useOllama : Bool)
    (sol : String → String → String → Option String) (ρ : Nat → Nat)
    (u : Usage) (detected : List DetectedSkillR) (ai : List GenQuestion) :
    List GenQuestion × Usage :=
  if 5 ≤ ai.length then (ai.take 5, u)
  else
    let sw := ai.map (fun q => q.skill)
    let st₁ := gqLoop1 bank useOllama sol ρ detected (ai, sw, u, 0)
    let st₂ := if st₁.1.length < 3 then gqLoop2 bank useOllama sol ρ detected st₁ else st₁
    (st₂.1.take 5, st₂.2.2.1)

/-- See `gqCore`: `ai_questions` flattens to `[]` unless the AI path ran. -/
def generate_questions (bank : List QuestionBankEntry) (useOllama hasResume : Bool)
    (aiQuestions : List GenQuestion) (sol : String → String → String → Option String)
    (ρ : Nat → Nat) (u : Usage) (detected : List DetectedSkillR) :
    List GenQuestion × Usage :=
  gqCore bank useOllama sol ρ u detected (if useOllama && hasResume then aiQuestions else [])

/-- Consecutive calls of `_get_next_question_from_bank` for a fixed
`(skill, level)` with no exclusion, threading the usage state; returns the
list of results in call order and the final state.  `ρ` is the random-choice
oracle tape, one entry per call. -/
def runBank (bank : List QuestionBankEntry) (skill level : String) :
    (Nat → Nat) → Nat → Usage → List (Option String) × Usage
  | _, 0, u => ([], u)
  | ρ, Nat.succ n, u =>
    let step := get_next_question_from_bank bank u (ρ 0) skill level none
    let rest := runBank bank skill level (fun t => ρ (t + 1)) n step.2
    (step.1 :: rest.1, rest.2)

/-- Python `\s`-style whitespace test on the ASCII range
(`Char.isWhitespace` covers space, tab, CR, LF). -/
def pyIsSpace (c : Char) : Bool := c.isWhitespace

/-- Python substring containment `v in t`, as a Boolean on character lists. -/
def isSubstring (v t : List Char) : Bool :=
  t.tails.any (fun suffix => v.isPrefixOf suffix)

/-- Scanner for the `re.sub(r'\s+', ' ', text)` step: collapse every
whitespace run to a single space.  The fuel is at least the list length, so
it never runs out (each step consumes at least one character). -/
def collapseWsAux : Nat → List Char → List Char
  | 0, s => s
  | _, [] => []
  | Nat.succ f, c :: rest =>
    if pyIsSpace c then ' ' :: collapseWsAux f (rest.dropWhile pyIsSpace)
    else c :: collapseWsAux f rest

/-- See `collapseWsAux`. -/
def collapseWs (s : List Char) : List Char := collapseWsAux s.length s

/-- Embedding of `ResumeAnalyzer.normalize_text`: lowercase, then collapse
whitespace. -/
def normalize_text (text : List Char) : List Char := collapseWs (text.map Char.toLower)

/-- Python `str.lower()` on the ASCII range, computed through the character
list so that it reduces in the kernel (`String.toLower` is the same map). -/
def pyLower (s : String) : String := String.mk (s.toList.map Char.toLower)

/-- Python dict assignment `d[k] = v` on an insertion-ordered dict embedded
as an association list: an existing key keeps its position and gets the new
value, a fresh key is appended. -/
def dictInsert (d : List (String × String)) (k v : String) : List (String × String) :=
  if d.any (fun p => p.1 == k) then d.map (fun p => if p.1 == k then (k, v) else p)
  else d ++ [(k, v)]

/-- The `self.skill_vocab` construction loop of `ResumeAnalyzer.__init__`:
variant → canonical-key bindings, including the hard-coded python/javascript/
nodejs variants (note `"node"` is written by both javascript and nodejs). -/
def buildVocab : List QuestionBankEntry → List (String × String) → List (String × String)
  | [], d => d
  | e :: rest, d =>
    let d₁ := dictInsert d (pyLower e.skill) e.skill
    let d₂ := dictInsert d₁ (pyLower e.displayName) e.skill
    let d₃ :=
      if e.skill == "python" then dictInsert (dictInsert d₂ "python3" e.skill) "python 3" e.skill
      else if e.skill == "javascript" then dictInsert (dictInsert d₂ "js" e.skill) "node" e.skill
      else if e.skill == "nodejs" then dictInsert (dictInsert d₂ "node.js" e.skill) "node" e.skill
      else d₂
    buildVocab rest d₃

/-- The `self.job_role_priorities` table of `ResumeAnalyzer.__init__`. -/
def job_role_priorities : List (String × List String) :=
  [("data science", ["python", "sql", "javascript"]),
   ("software engineer", ["python", "javascript", "react", "nodejs"]),
   ("web developer", ["html", "css", "javascript", "react"]),
   ("backend developer", ["python", "nodejs", "sql"]),
   ("frontend developer", ["html", "css", "javascript", "react"])]

/-- Inner loop of the job-role prioritisation: append every detected skill
with the given key that is not already present (`skill not in prioritized`
compares records structurally, like Python `==` on dicts). -/
def addMatching (p : String) : List DetectedSkillR → List DetectedSkillR → List DetectedSkillR
  | [], acc => acc
  | s :: rest, acc =>
    if s.key == p && !(acc.any (fun x => x == s)) then addMatching p rest (acc ++ [s])
    else addMatching p rest acc

/-- Second loop of the job-role prioritisation: append every detected skill
not already present, checking membership against the growing list (so
structurally-equal duplicates are kept only once, as in Python). -/
def addRemaining : List DetectedSkillR → List DetectedSkillR → List DetectedSkillR
  | [], acc => acc
  | s :: rest, acc =>
    if acc.any (fun x => x == s) then addRemaining rest acc
    else addRemaining rest (acc ++ [s])

/-- Build the `prioritized` list for one matched role: priority skills first,
then the remaining detected skills in their original order. -/
def prioritizeByRole (skills : List String) (detected : List DetectedSkillR) :
    List DetectedSkillR :=
  addRemaining detected (skills.foldl (fun acc p => addMatching p detected acc) [])

/-- Job-role reordering of `detect_skills`: the first role whose name is a
substring of the lowercased job role wins; otherwise the order is untouched. -/
def applyJobRole (jobRole : Option String) (detected : List DetectedSkillR) :
    List DetectedSkillR :=
  match jobRole with
  | none => detected
  | some jr =>
    match job_role_priorities.find? (fun p => isSubstring p.1.toList (pyLower jr).toList) with
    | some p => prioritizeByRole p.2 detected
    | none => detected

/-- Python `\w` on the ASCII range. -/
def isWordChar (c : Char) : Bool := c.isAlphanum || c == '_'

/-- Regex `\b` at a given position of the text: exactly one of the adjacent
characters is a word character (out-of-range counts as non-word). -/
def boundaryOk (t : List Char) (pos : Nat) : Bool :=
  (if pos = 0 then false else isWordChar (t.getD (pos - 1) ' ')) !=
    (if t.length ≤ pos then false else isWordChar (t.getD pos ' '))

/-- Scan for `re.finditer(rf'\b{re.escape(v)}\b', t)`: literal occurrences of
`v` with word boundaries on both sides, non-overlapping, left to right. -/
def finditerAux (t v : List Char) : Nat → Nat → List Nat
  | 0, _ => []
  | Nat.succ f, pos =>
    if t.length < pos + v.length then []
    else if v.isPrefixOf (t.drop pos) && boundaryOk t pos && boundaryOk t (pos + v.length) then
      pos :: finditerAux t v f (pos + v.length)
    else finditerAux t v f (pos + 1)

/-- Match positions of `\b v \b` in `t` (see `finditerAux`). -/
def finditerWB (t v : List Char) : List Nat := finditerAux t v (t.length + 1) 0

/-- The advanced-level indicator keywords of `infer_skill_level`. -/
def advanced_keywords : List String :=
  ["advanced", "expert", "lead", "senior", "5+ years", "5 years",
   "extensive", "deep", "mastery", "proficient in", "experienced with"]

/-- The beginner-level indicator keywords of `infer_skill_level`. -/
def beginner_keywords : List String :=
  ["beginner", "familiar", "some experience", "basic", "learning",
   "introduction", "introductory", "novice"]

/-- The intermediate-level indicator keywords of `infer_skill_level`. -/
def intermediate_keywords : List String :=
  ["intermediate", "proficient", "2+ years", "2 years", "3+ years",
   "3 years", "comfortable", "working knowledge"]

/-- Per-occurrence classification loop of `infer_skill_level`: a ±100
character context window around each match, checked against the keyword
tiers in priority order; the first occurrence that hits any tier decides,
otherwise the default is `"intermediate"`. -/
def levelFromMatches (lower : List Char) (vlen : Nat) : List Nat → String
  | [] => "intermediate"
  | pos :: rest =>
    let s := pos - 100
    let e := min lower.length (pos + vlen + 100)
    let context := (lower.take e).drop s
    if advanced_keywords.any (fun kw => isSubstring kw.toList context) then "advanced"
    else if beginner_keywords.any (fun kw => isSubstring kw.toList context) then "beginner"
    else if intermediate_keywords.any (fun kw => isSubstring kw.toList context) then "intermediate"
    else levelFromMatches lower vlen rest

/-- Embedding of `ResumeAnalyzer.infer_skill_level`.  `aiLevel` is the oracle
for `infer_skill_level_with_ollama` (`none` models its `None` failure
return); it is consulted only when `use_ollama` holds, otherwise the keyword
fallback over the lowercased text runs. -/
def infer_skill_level (useOllama : Bool) (aiLevel : String → Option String)
    (text : List Char) (skill_key variant : String) : String :=
  match useOllama, aiLevel skill_key with
  | true, some l => l
  | _, _ =>
    let lower := text.map Char.toLower
    levelFromMatches lower variant.length (finditerWB lower variant.toList)

/-- Python `str.capitalize()`: first character uppercased, the rest lowered. -/
def pyCapitalize (s : String) : String :=
  match s.toList with
  | [] => ""
  | c :: rest => String.mk (c.toUpper :: rest.map Char.toLower)

/-- Fallback detection loop of `detect_skills`: iterate the vocabulary in
insertion order, keep a variant found as a substring of the normalized text
unless its canonical key is already present, and attach the display name
from the first matching bank entry (else the capitalized key). -/
def fallbackDetect (bank : List QuestionBankEntry) (normText : List Char) :
    List (String × String) → List DetectedSkillR → List DetectedSkillR
  | [], acc => acc
  | (variant, key) :: rest, acc =>
    if isSubstring variant.toList normText then
      if acc.any (fun s => s.key == key) then fallbackDetect bank normText rest acc
      else
        let name := match bank.find? (fun e => e.skill == key) with
          | some e => e.displayName
          | none => pyCapitalize key
        fallbackDetect bank normText rest (acc ++ [⟨key, name, variant, ""⟩])
    else fallbackDetect bank normText rest acc

/-- Embedding of `ResumeAnalyzer.detect_skills`.  `aiDetected` is the value
the AI path would produce (`[]` flattens both a `None` failure and an empty
list, which Python treats alike via truthiness); with the AI path disabled
the vocabulary fallback runs, levels are attached per skill, and the
job-role reordering is applied. -/
def detect_skills (bank : List QuestionBankEntry) (useOllama : Bool)
    (aiDetected : List DetectedSkillR) (aiLevel : String → Option String)
    (text : List Char) (jobRole : Option String) : List DetectedSkillR :=
  if useOllama && !aiDetected.isEmpty then applyJobRole jobRole aiDetected
  else
    let normText := normalize_text text
    let detected := fallbackDetect bank normText (buildVocab bank []) []
    let detected := detected.map (fun s =>
      { s with level := infer_skill_level useOllama aiLevel text s.key s.variant })
    applyJobRole jobRole detected

/-- Python `str.strip()`: drop leading and trailing whitespace. -/
def pyStrip (s : List Char) : List Char :=
  ((s.dropWhile pyIsSpace).reverse.dropWhile pyIsSpace).reverse

/-- One `{name, key, level}` record of the `analyze` response. -/
structure SkillOut where
  name : String
  key : String
  level : String
deriving DecidableEq

/-- The `analyze` response `{skills, questions}`. -/
structure AnalyzeResult where
  skills : List SkillOut
  questions : List GenQuestion
deriving DecidableEq

/-- Embedding of `ResumeAnalyzer.analyze` after text extraction: `text` is
the string the external PDF extractor returned.  Short or empty text
(`not text or len(text.strip()) < 10`) short-circuits to the empty result
before any detection or generation runs. -/
def analyze (bank : List QuestionBankEntry) (useOllama : Bool)
    (aiDetected : List DetectedSkillR) (aiLevel : String → Option String)
    (aiQuestions : List GenQuestion) (sol : String → String → String → Option String)
    (ρ : Nat → Nat) (u : Usage) (text : List Char) (jobRole : Option String) :
    AnalyzeResult × Usage :=
  if text = [] ∨ (pyStrip text).length < 10 then (⟨[], []⟩, u)
  else
    let detected := detect_skills bank useOllama aiDetected aiLevel text jobRole
    let gq := generate_questions bank useOllama (!text.isEmpty) aiQuestions sol ρ u detected
    (⟨detected.map (fun s => ⟨s.name, s.key, s.level⟩), gq.1⟩, gq.2)

/-- JSON value, the result type of Python `json.loads` restricted to the
fragment the analyzer exchanges: null, booleans, integer numbers, strings,
arrays and objects.  Floats and `\uXXXX` escapes are outside the fragment
(no analyzed input contains them); an object is the parsed key/value list. -/
inductive JValue where
  | jnull : JValue
  | jbool : Bool → JValue
  | jnum : Int → JValue
  | jstr : List Char → JValue
  | jarr : List JValue → JValue
  | jobj : List (List Char × JValue) → JValue

/-- JSON insignificant whitespace. -/
def jsonWs (c : Char) : Bool := c = ' ' || c = '\t' || c = '\n' || c = '\r'

/-- Skip JSON whitespace. -/
def skipJsonWs (s : List Char) : List Char := s.dropWhile jsonWs

/-- JSON string escape table (the `\uXXXX` form is outside the fragment). -/
def parseEscape (c : Char) : Option Char :=
  if c = '"' then some '"'
  else if c = '\\' then some '\\'
  else if c = '/' then some '/'
  else if c = 'b' then some (Char.ofNat 8)
  else if c = 'f' then some (Char.ofNat 12)
  else if c = 'n' then some '\n'
  else if c = 'r' then some '\r'
  else if c = 't' then some '\t'
  else none

/-- Parse the body of a JSON string after the opening quote; returns the
decoded characters and the remainder after the closing quote. -/
def parseJStringAux : Nat → List Char → Option (List Char × List Char)
  | 0, _ => none
  | _, [] => none
  | Nat.succ f, c :: rest =>
    if c = '"' then some ([], rest)
    else if c = '\\' then
      match rest with
      | [] => none
      | e :: rest' =>
        match parseEscape e with
        | some ch =>
          match parseJStringAux f rest' with
          | some (cs, r) => some (ch :: cs, r)
          | none => none
        | none => none
    else
      match parseJStringAux f rest with
      | some (cs, r) => some (c :: cs, r)
      | none => none

/-- Parse a non-empty digit run as a natural number. -/
def parseDigits (s : List Char) : Option (Nat × List Char) :=
  let ds := s.takeWhile Char.isDigit
  if ds = [] then none
  else some (ds.foldl (fun n c => n * 10 + (c.toNat - 48)) 0, s.drop ds.length)

/-- A number continuing with `.`/`e`/`E` would be a float, outside the
embedded fragment. -/
def numContinues (s : List Char) : Bool :=
  match s with
  | c :: _ => c = '.' || c = 'e' || c = 'E'
  | [] => false

mutual

/-- Recursive JSON value parser (strict, like `json.loads`: double-quoted
strings only, no trailing commas).  Fuel bounds the recursion; the callers
always pass enough fuel for the whole input. -/
def parseJValue : Nat → List Char → Option (JValue × List Char)
  | 0, _ => none
  | Nat.succ f, s =>
    match s with
    | [] => none
    | c :: rest =>
      if c = '{' then
        let s1 := skipJsonWs rest
        match s1 with
        | '}' :: r => some (.jobj [], r)
        | _ => parseJMembers f s1 []
      else if c = '[' then
        let s1 := skipJsonWs rest
        match s1 with
        | ']' :: r => some (.jarr [], r)
        | _ => parseJItems f s1 []
      else if c = '"' then
        match parseJStringAux (rest.length + 1) rest with
        | some (str, r) => some (.jstr str, r)
        | none => none
      else if c = 't' then
        if "rue".toList.isPrefixOf rest then some (.jbool true, rest.drop 3) else none
      else if c = 'f' then
        if "alse".toList.isPrefixOf rest then some (.jbool false, rest.drop 4) else none
      else if c = 'n' then
        if "ull".toList.isPrefixOf rest then some (.jnull, rest.drop 3) else none
      else if c = '-' then
        match parseDigits rest with
        | some (n, r) => if numContinues r then none else some (.jnum (-(n : Int)), r)
        | none => none
      else if c.isDigit then
        match parseDigits (c :: rest) with
        | some (n, r) => if numContinues r then none else some (.jnum (n : Int), r)
        | none => none
      else none

/-- Array items loop: value, then `,` and the next item or `]`. -/
def parseJItems : Nat → List Char → List JValue → Option (JValue × List Char)
  | 0, _, _ => none
  | Nat.succ f, s, acc =>
    match parseJValue f s with
    | none => none
    | some (v, r) =>
      match skipJsonWs r with
      | ',' :: r2 => parseJItems f (skipJsonWs r2) (acc ++ [v])
      | ']' :: r2 => some (.jarr (acc ++ [v]), r2)
      | _ => none

/-- Object members loop: `"key": value`, then `,` and the next member or `}`. -/
def parseJMembers : Nat → List Char → List (List Char × JValue) →
    Option (JValue × List Char)
  | 0, _, _ => none
  | Nat.succ f, s, acc =>
    match s with
    | '"' :: rest =>
      match parseJStringAux (rest.length + 1) rest with
      | some (k, r) =>
        (match skipJsonWs r with
         | ':' :: r2 =>
           (match parseJValue f (skipJsonWs r2) with
            | some (v, r3) =>
              (match skipJsonWs r3 with
               | ',' :: r5 => parseJMembers f (skipJsonWs r5) (acc ++ [(k, v)])
               | '}' :: r5 => some (.jobj (acc ++ [(k, v)]), r5)
               | _ => none)
            | none => none)
         | _ => none)
      | none => none
    | _ => none

end

/-- Model of Python `json.loads` on the embedded fragment: parse one value
and require only whitespace to remain (`json.loads` rejects trailing data). -/
def jsonLoads (s : List Char) : Option JValue :=
  match parseJValue (2 * s.length + 4) (skipJsonWs s) with
  | some (v, r) => if skipJsonWs r = [] then some v else none
  | none => none

/-- Scanner for `re.sub(lit + r'\s*', '', s)`: delete every occurrence of the
literal together with the whitespace run following it. -/
def subLitWsAux (lit : List Char) : Nat → List Char → List Char
  | 0, s => s
  | _, [] => []
  | Nat.succ f, c :: rest =>
    if lit ≠ [] ∧ lit.isPrefixOf (c :: rest) then
      subLitWsAux lit f ((rest.drop (lit.length - 1)).dropWhile pyIsSpace)
    else c :: subLitWsAux lit f rest

/-- See `subLitWsAux`. -/
def subLitWs (lit s : List Char) : List Char := subLitWsAux lit (s.length + 1) s

/-- Scanner for `re.sub(r',\s*' + close, close, s)` with `close` one of
`}`/`]`: delete a comma (and following whitespace) directly before the
closing bracket. -/
def subCommaWsAux (close : Char) : Nat → List Char → List Char
  | 0, s => s
  | _, [] => []
  | Nat.succ f, c :: rest =>
    if c = ',' then
      match rest.dropWhile pyIsSpace with
      | d :: rest' =>
        if d = close then close :: subCommaWsAux close f rest'
        else c :: subCommaWsAux close f rest
      | [] => c :: subCommaWsAux close f rest
    else c :: subCommaWsAux close f rest

/-- See `subCommaWsAux`. -/
def subCommaWs (close : Char) (s : List Char) : List Char :=
  subCommaWsAux close (s.length + 1) s

/-- Strategy 1 of `_parse_json_from_response`: strip, remove markdown code
fences, parse the whole string, succeed only on a JSON array. -/
def strategy1 (response : List Char) : Option (List JValue) :=
  let cleaned := pyStrip response
  let cleaned := subLitWs "```json".toList cleaned
  let cleaned := subLitWs "```".toList cleaned
  let cleaned := pyStrip cleaned
  match jsonLoads cleaned with
  | some (JValue.jarr vs) => some vs
  | _ => none

/-- Strategy 2 of `_parse_json_from_response`: the greedy
`re.search(r'\[[\s\S]*\]')` span (first `[` through last `]`), fence removal,
trailing-comma repair, parse, succeed only on a non-empty JSON array. -/
def strategy2 (response : List Char) : Option (List JValue) :=
  match response.findIdx? (fun c => c = '['),
    response.reverse.findIdx? (fun c => c = ']') with
  | some i, some jr =>
    let j := response.length - 1 - jr
    if i < j then
      let json_str := (response.take (j + 1)).drop i
      let json_str := subLitWs "```json".toList json_str
      let json_str := subLitWs "```".toList json_str
      let json_str := pyStrip json_str
      let json_str := subCommaWs '}' json_str
      let json_str := subCommaWs ']' json_str
      match jsonLoads json_str with
      | some (JValue.jarr vs) => if 0 < vs.length then some vs else none
      | _ => none
    else none
  | _, _ => none

/-- Case-insensitive literal prefix test (for `re.IGNORECASE`). -/
def ciPrefix : List Char → List Char → Bool
  | [], _ => true
  | _ :: _, [] => false
  | a :: as, b :: bs => a.toLower = b.toLower && ciPrefix as bs

/-- Match `"key"\s*:\s*"value"` (value without double quotes, non-empty
unless `allowEmpty`, key compared case-insensitively) at the start of `s`;
returns the value and the remainder after the value's closing quote. -/
def matchKVAt (key : List Char) (allowEmpty : Bool) (s : List Char) :
    Option (List Char × List Char) :=
  match s with
  | '"' :: r1 =>
    if ciPrefix key r1 then
      match r1.drop key.length with
      | '"' :: r2 =>
        (match r2.dropWhile pyIsSpace with
         | ':' :: r4 =>
           (match r4.dropWhile pyIsSpace with
            | '"' :: r6 =>
              let v := r6.takeWhile (fun c => c ≠ '"')
              (match r6.drop v.length with
               | '"' :: r8 => if allowEmpty || !v.isEmpty then some (v, r8) else none
               | _ => none)
            | _ => none)
         | _ => none)
      | _ => none
    else none
  | _ => none

/-- Leftmost occurrence of the `matchKVAt` shape anywhere in `s`
(`re.search` of `"key"\s*:\s*"(value)"`). -/
def searchKVAux (key : List Char) (allowEmpty : Bool) : Nat → List Char →
    Option (List Char × List Char)
  | 0, _ => none
  | _, [] => none
  | Nat.succ f, c :: rest =>
    match matchKVAt key allowEmpty (c :: rest) with
    | some r => some r
    | none => searchKVAux key allowEmpty f rest

/-- See `searchKVAux`. -/
def searchKV (key : List Char) (allowEmpty : Bool) (s : List Char) :
    Option (List Char × List Char) :=
  searchKVAux key allowEmpty (s.length + 1) s

/-- The ordered field requirement of strategy 3's `object_pattern`: inside a
brace-free object body, a double-quoted `skill` pair, then `level`, then
`question` (the last may have an empty value). -/
def interiorHasTriplet (interior : List Char) : Bool :=
  match searchKV "skill".toList false interior with
  | none => false
  | some pr =>
    match searchKV "level".toList false pr.2 with
    | none => false
    | some pr2 => (searchKV "question".toList true pr2.2).isSome

/-- Scanner for `re.findall(object_pattern, s)`: every `{`-to-`}` span with a
brace-free body satisfying `interiorHasTriplet`, scanned left to right,
non-overlapping (the pattern's segments all forbid braces, so a match spans
exactly the text from a `{` to the next following brace, which must be `}`). -/
def findObjectsAux : Nat → List Char → List (List Char)
  | 0, _ => []
  | _, [] => []
  | Nat.succ f, c :: rest =>
    if c = '{' then
      let interior := rest.takeWhile (fun d => d ≠ '{' && d ≠ '}')
      match rest.drop interior.length with
      | '}' :: r2 =>
        if interiorHasTriplet interior then
          ('{' :: (interior ++ ['}'])) :: findObjectsAux f r2
        else findObjectsAux f rest
      | _ => findObjectsAux f rest
    else findObjectsAux f rest

/-- See `findObjectsAux`. -/
def findObjects (s : List Char) : List (List Char) := findObjectsAux (s.length + 1) s

/-- Scanner for `re.sub(r"'(\w+)':", r'"\1":', s)`: rewrite a single-quoted
word key directly followed by a colon into a double-quoted key. -/
def fixSingleQuoteKeysAux : Nat → List Char → List Char
  | 0, s => s
  | _, [] => []
  | Nat.succ f, c :: rest =>
    if c = '\'' then
      let w := rest.takeWhile isWordChar
      match rest.drop w.length with
      | '\'' :: ':' :: r2 =>
        if !w.isEmpty then '"' :: (w ++ '"' :: ':' :: fixSingleQuoteKeysAux f r2)
        else c :: fixSingleQuoteKeysAux f rest
      | _ => c :: fixSingleQuoteKeysAux f rest
    else c :: fixSingleQuoteKeysAux f rest

/-- See `fixSingleQuoteKeysAux`. -/
def fixSingleQuoteKeys (s : List Char) : List Char :=
  fixSingleQuoteKeysAux (s.length + 1) s

/-- Strategy 3 of `_parse_json_from_response`: find object-shaped substrings
(`object_pattern`), repair single-quoted keys and trailing commas per object,
`json.loads` each, keep the dicts with `skill`/`level`/`question` keys. -/
def strategy3 (response : List Char) : Option (List JValue) :=
  let ms := findObjects response
  if ms.isEmpty then none
  else
    let parsed := ms.filterMap (fun m =>
      let m1 := pyStrip m
      let m2 := fixSingleQuoteKeys m1
      let m3 := subCommaWs '}' m2
      match jsonLoads m3 with
      | some (JValue.jobj kvs) =>
        if kvs.any (fun p => p.1 == "skill".toList) &&
            kvs.any (fun p => p.1 == "level".toList) &&
            kvs.any (fun p => p.1 == "question".toList) then
          some (JValue.jobj kvs)
        else none
      | _ => none)
    if parsed.isEmpty then none else some parsed

/-- Occurrences of `"skill"\s*:\s*"([^"]+)"` with their start positions
(`re.finditer`, non-overlapping, left to right). -/
def finditerSkillAux : Nat → Nat → List Char → List (Nat × List Char)
  | 0, _, _ => []
  | _, _, [] => []
  | Nat.succ f, pos, c :: rest =>
    match matchKVAt "skill".toList false (c :: rest) with
    | some (v, r8) =>
      let consumed := (c :: rest).length - r8.length
      (pos, v) :: finditerSkillAux f (pos + consumed) r8
    | none => finditerSkillAux f (pos + 1) rest

/-- See `finditerSkillAux`. -/
def finditerSkill (s : List Char) : List (Nat × List Char) :=
  finditerSkillAux (s.length + 1) 0 s

/-- Strategy 4 of `_parse_json_from_response`: for every `"skill": "..."`
occurrence, search a 500-character trailing window for `"level"` and
`"question"` values; keep records whose three fields are non-empty after
stripping the question. -/
def strategy4 (response : List Char) : Option (List JValue) :=
  let found := finditerSkill response
  let questions := found.filterMap (fun pv =>
    let segment := (response.drop pv.1).take 500
    match searchKV "level".toList false segment,
      searchKV "question".toList true segment with
    | some lv, some qv =>
      let q := pyStrip qv.1
      if !pv.2.isEmpty ∧ !lv.1.isEmpty ∧ !q.isEmpty then
        some (JValue.jobj [("skill".toList, JValue.jstr pv.2),
          ("level".toList, JValue.jstr lv.1),
          ("question".toList, JValue.jstr q)])
      else none
    | _, _ => none)
  if questions.isEmpty then none else some questions

/-- Embedding of `ResumeAnalyzer._parse_json_from_response`: the ordered
four-strategy cascade, `none` when the input is blank or every strategy
fails. -/
def parse_json_from_response (response : List Char) : Option (List JValue) :=
  if pyStrip response = [] then none
  else
    match strategy1 response with
    | some r => some r
    | none =>
      match strategy2 response with
      | some r => some r
      | none =>
        match strategy3 response with
        | some r => some r
        | none => strategy4 response

/-! ### Concrete fixtures used by witnesses and counterexamples -/

/-- The 2-entry bank of the end-to-end scenario:
`{python: {beginner:["Q1"], intermediate:["Q2","Q3"]}, sql: {intermediate:["Q4"]}}`. -/
def bankPair : List QuestionBankEntry :=
  [⟨"python", "Python", [("beginner", ["Q1"]), ("intermediate", ["Q2", "Q3"])]⟩,
   ⟨"sql", "SQL", [("intermediate", ["Q4"])]⟩]

/-- A bank with a single 3-question pool, for the rotation claims. -/
def bankRot : List QuestionBankEntry :=
  [⟨"python", "Python", [("intermediate", ["QA", "QB", "QC"])]⟩]

/-- A bank with a singleton pool, for the exclusion edge case. -/
def bankSingle : List QuestionBankEntry :=
  [⟨"python", "Python", [("intermediate", ["DUP"])]⟩]

/-- Solution oracle of a run with the AI path disabled. -/
def noSolution : String → String → String → Option String := fun _ _ _ => none

/-- Detected skills of the end-to-end scenario. -/
def detectedPair : List DetectedSkillR :=
  [⟨"python", "Python", "python", "intermediate"⟩, ⟨"sql", "SQL", "sql", "intermediate"⟩]

/-- A single detected skill with a non-empty bank list at its level. -/
def detectedSingle : List DetectedSkillR := [⟨"python", "Python", "python", "intermediate"⟩]

/-- Validity of an index run: each appended index is in range and, at the
moment of its selection, did not fill the whole 10-slot lookback window of
the history accumulated so far. -/
def ExtValid (qs : List String) : List Nat → List Nat → Prop
  | _, [] => True
  | base, i :: is =>
    i < qs.length ∧ (lastN base 10).count i < 10 ∧ ExtValid qs (base ++ [i]) is

/-- The canonical single-quoted malformed object of the resilient-parsing
test set: a single object whose keys and values are written with single
quotes, carrying skill, level and question fields. -/
def c6FailingInput : List Char :=
  "\x7b'skill': 'python', 'level': 'beginner', 'question': 'What is a list comprehension?'\x7d".toList

/-! ### Helper lemmas -/

/-- Membership in `pyEnumFrom` determines position and value. -/
theorem mem_pyEnumFrom {α : Type} (d : α) :
    ∀ {l : List α} {i : Nat} {p : Nat × α}, p ∈ pyEnumFrom i l →
      ∃ j, j < l.length ∧ p.1 = i + j ∧ p.2 = l.getD j d := by
  intro l
  induction l with
  | nil => intro i p h; simp [pyEnumFrom] at h
  | cons a as ih =>
    intro i p h
    rw [pyEnumFrom, List.mem_cons] at h
    rcases h with h | h
    · exact ⟨0, by simp, by simp [h], by simp [h]⟩
    · obtain ⟨j, hj, h1, h2⟩ := ih h
      refine ⟨j + 1, ?_, by omega, by simpa using h2⟩
      simp only [List.length_cons]
      omega

/-- Every position of a list occurs in its enumeration. -/
theorem pyEnumFrom_mem {α : Type} (d : α) :
    ∀ {l : List α} {j : Nat} (i : Nat), j < l.length → (i + j, l.getD j d) ∈ pyEnumFrom i l := by
  intro l
  induction l with
  | nil => intro j i h; simp at h
  | cons a as ih =>
    intro j i h
    cases j with
    | zero => simp [pyEnumFrom]
    | succ j =>
      rw [pyEnumFrom, List.mem_cons]
      right
      have h' : j < as.length := by
        simp only [List.length_cons] at h
        omega
      have hmem := ih (i + 1) h'
      have e : i + 1 + j = i + (j + 1) := by omega
      rw [e] at hmem
      simpa using hmem

/-- `getD` at a valid position is a member. -/
theorem getD_mem_of_lt {α : Type} (d : α) {l : List α} {n : Nat} (h : n < l.length) :
    l.getD n d ∈ l := by
  rw [List.getD_eq_getElem l d h]
  exact List.getElem_mem h

/-- Counts of two distinct values never exceed the length. -/
theorem count_add_count_le_length {a b : Nat} (h : a ≠ b) :
    ∀ (l : List Nat), l.count a + l.count b ≤ l.length
  | [] => by simp
  | c :: cs => by
    have ih := count_add_count_le_length h cs
    have hcount : ∀ x : Nat, (c :: cs).count x = cs.count x + if x = c then 1 else 0 := by
      intro x
      by_cases hxc : x = c <;> simp [List.count_cons, hxc]
    rw [hcount a, hcount b, List.length_cons]
    by_cases ha : a = c <;> by_cases hb : b = c
    · exact absurd (ha.trans hb.symm) h
    · rw [if_pos ha, if_neg hb]
      omega
    · rw [if_neg ha, if_pos hb]
      omega
    · rw [if_neg ha, if_neg hb]
      omega

/-- The lookback window has length at most `n`. -/
theorem lastN_length_le (l : List Nat) (n : Nat) : (lastN l n).length ≤ n := by
  simp only [lastN, List.length_drop]
  omega

/-- The selection helper returns an element of the bank list whenever that
list is non-empty, regardless of usage state, random outcome and exclusion. -/
theorem getNext_some_mem {bank : List QuestionBankEntry} {k lvl : String}
    (u : Usage) (r : Nat) (ex : Option String)
    (hne : bankQuestions bank k lvl ≠ []) :
    ∃ q, (get_next_question_from_bank bank u r k lvl ex).1 = some q ∧
      q ∈ bankQuestions bank k lvl := by
  cases hlk : bankLookup bank k with
  | none => simp [bankQuestions, hlk] at hne
  | some e =>
    have hq : dictGet e.levels lvl [] ≠ [] := by simpa [bankQuestions, hlk] using hne
    have hbq : bankQuestions bank k lvl = dictGet e.levels lvl [] := by
      simp [bankQuestions, hlk]
    rw [hbq]
    simp only [get_next_question_from_bank, hlk, if_neg hq]
    set qs := dictGet e.levels lvl [] with hqs
    set P₁ : Nat × String → Bool := fun p => !excludeHit ex p.2 &&
      decide ((lastN (u (k, lvl)) 10).count p.1 < 10) with hP₁
    set P₂ : Nat × String → Bool := fun p => !excludeHit ex p.2 with hP₂
    by_cases hA : (pyEnum qs).filter P₁ = []
    · by_cases hB : (pyEnum qs).filter P₂ = []
      · rw [if_pos hA, if_neg (fun hcon => hcon hB)]
        by_cases hg : excludeTruthy ex = true ∧ some (qs.getD 0 "") = ex ∧ 1 < qs.length
        · rw [if_pos hg]
          exact ⟨_, rfl, getD_mem_of_lt "" hg.2.2⟩
        · rw [if_neg hg]
          exact ⟨_, rfl, getD_mem_of_lt "" (List.length_pos.mpr hq)⟩
      · rw [if_pos hA, if_pos hB]
        have hlen : 0 < ((pyEnum qs).filter P₂).length := List.length_pos.mpr hB
        have hmod : r % ((pyEnum qs).filter P₂).length < ((pyEnum qs).filter P₂).length :=
          Nat.mod_lt _ hlen
        have hmem : ((pyEnum qs).filter P₂).getD (r % ((pyEnum qs).filter P₂).length) (0, "")
            ∈ (pyEnum qs).filter P₂ := getD_mem_of_lt _ hmod
        obtain ⟨hin, -⟩ := List.mem_filter.mp hmem
        obtain ⟨j, hj, -, hval⟩ := mem_pyEnumFrom "" hin
        refine ⟨_, rfl, ?_⟩
        rw [hval]
        exact getD_mem_of_lt "" hj
    · rw [if_neg hA, if_pos hA]
      have hlen : 0 < ((pyEnum qs).filter P₁).length := List.length_pos.mpr hA
      have hmod : r % ((pyEnum qs).filter P₁).length < ((pyEnum qs).filter P₁).length :=
        Nat.mod_lt _ hlen
      have hmem : ((pyEnum qs).filter P₁).getD (r % ((pyEnum qs).filter P₁).length) (0, "")
          ∈ (pyEnum qs).filter P₁ := getD_mem_of_lt _ hmod
      obtain ⟨hin, -⟩ := List.mem_filter.mp hmem
      obtain ⟨j, hj, -, hval⟩ := mem_pyEnumFrom "" hin
      refine ⟨_, rfl, ?_⟩
      rw [hval]
      exact getD_mem_of_lt "" hj

/-- Shape of the usage map after one selection call: unchanged, or a point
update of the call's key with the old history, the empty history, the old
history plus one appended index, or a single index (append after clearing). -/
theorem getNext_usage_shape (bank : List QuestionBankEntry) (u : Usage) (r : Nat)
    (k lvl : String) (ex : Option String) :
    (get_next_question_from_bank bank u r k lvl ex).2 = u ∨
      ∃ v, (get_next_question_from_bank bank u r k lvl ex).2 = updateUsage u (k, lvl) v ∧
        (v = u (k, lvl) ∨ v = [] ∨ ∃ i, v = u (k, lvl) ++ [i] ∨ v = [i]) := by
  cases hlk : bankLookup bank k with
  | none =>
    left
    simp [get_next_question_from_bank, hlk]
  | some e =>
    by_cases hq : dictGet e.levels lvl [] = []
    · left
      simp [get_next_question_from_bank, hlk, hq]
    · simp only [get_next_question_from_bank, hlk, if_neg hq]
      set qs := dictGet e.levels lvl [] with hqs
      set P₁ : Nat × String → Bool := fun p => !excludeHit ex p.2 &&
        decide ((lastN (u (k, lvl)) 10).count p.1 < 10) with hP₁
      set P₂ : Nat × String → Bool := fun p => !excludeHit ex p.2 with hP₂
      by_cases hA : (pyEnum qs).filter P₁ = []
      · by_cases hB : (pyEnum qs).filter P₂ = []
        · rw [if_pos hA, if_neg (fun hcon => hcon hB)]
          refine Or.inr ⟨_, rfl, ?_⟩
          by_cases hC : 10 ≤ (u (k, lvl)).length
          · rw [if_pos ⟨hA, hC⟩]
            exact Or.inr (Or.inl rfl)
          · rw [if_neg (fun hcon => hC hcon.2)]
            exact Or.inl rfl
        · rw [if_pos hA, if_pos hB]
          refine Or.inr ⟨_, rfl, ?_⟩
          by_cases hC : 10 ≤ (u (k, lvl)).length
          · rw [if_pos ⟨hA, hC⟩]
            exact Or.inr (Or.inr ⟨_, Or.inr rfl⟩)
          · rw [if_neg (fun hcon => hC hcon.2)]
            exact Or.inr (Or.inr ⟨_, Or.inl rfl⟩)
      · rw [if_neg hA, if_pos hA]
        refine Or.inr ⟨_, rfl, ?_⟩
        rw [if_neg (fun hcon => hA hcon.1)]
        exact Or.inr (Or.inr ⟨_, Or.inl rfl⟩)

/-- C4: for every `(skillKey, level)` with zero bank questions (the skill key
is absent, or the level list is empty or missing), the selection returns
`None`, for every usage state, random outcome and `excludeText` argument. -/
theorem C4_zero_questions_returns_none (bank : List QuestionBankEntry)
    (u : Usage) (r : Nat) (k lvl : String) (ex : Option String)
    (h : bankQuestions bank k lvl = []) :
    (get_next_question_from_bank bank u r k lvl ex).1 = none := by
  cases hlk : bankLookup bank k with
  | none => simp [get_next_question_from_bank, hlk]
  | some e =>
    have hq : dictGet e.levels lvl [] = [] := by simpa [bankQuestions, hlk] using h
    simp [get_next_question_from_bank, hlk, hq]

/-- Witness for C4 at a concrete input: `python`/`advanced` has no list in
the fixture bank. -/
theorem C4_witness :
    (get_next_question_from_bank bankPair emptyUsage 3 "python" "advanced" (some "Q1")).1
      = none :=
  C4_zero_questions_returns_none bankPair emptyUsage 3 "python" "advanced" (some "Q1")
    (by decide)

/-- C5: when every bank question for `(skillKey, level)` equals the
`excludeText` (in particular a singleton pool), the selection still returns
that question rather than `None`, for every usage state and random outcome. -/
theorem C5_exclusion_cannot_be_satisfied (bank : List QuestionBankEntry)
    (u : Usage) (r : Nat) (k lvl : String) (s : String)
    (hne : bankQuestions bank k lvl ≠ [])
    (hall : ∀ q ∈ bankQuestions bank k lvl, q = s) :
    (get_next_question_from_bank bank u r k lvl (some s)).1 = some s := by
  obtain ⟨q, h1, h2⟩ := getNext_some_mem u r (some s) hne
  rw [h1, hall q h2]

/-- Witness for C5: a singleton pool whose only question is excluded. -/
theorem C5_witness :
    (get_next_question_from_bank bankSingle emptyUsage 3 "python" "intermediate"
      (some "DUP")).1 = some "DUP" :=
  C5_exclusion_cannot_be_satisfied bankSingle emptyUsage 3 "python" "intermediate" "DUP"
    (by decide) (by decide)

/-- C9: whenever the bank's list for `(skillKey, level)` is non-empty, the
selection returns an element of that list (never `None`), for every
`excludeText` argument and usage state. -/
theorem C9_nonempty_returns_member (bank : List QuestionBankEntry)
    (u : Usage) (r : Nat) (k lvl : String) (ex : Option String)
    (hne : bankQuestions bank k lvl ≠ []) :
    ∃ q, (get_next_question_from_bank bank u r k lvl ex).1 = some q ∧
      q ∈ bankQuestions bank k lvl :=
  getNext_some_mem u r ex hne

/-- Witness for C9 at a concrete input. -/
theorem C9_witness :
    ∃ q, (get_next_question_from_bank bankPair emptyUsage 1 "python" "intermediate"
        (some "Q2")).1 = some q ∧ q ∈ bankQuestions bankPair "python" "intermediate" :=
  C9_nonempty_returns_member bankPair emptyUsage 1 "python" "intermediate" (some "Q2")
    (by decide)

/-- C10: a selection call leaves the usage history of every key other than
`(skillKey, level)` unchanged, and changes that key's history only to the
old history (unchanged), to the empty history (cleared), to the old history
plus one appended index, or to a single index (append after clearing). -/
theorem C10_usage_frame (bank : List QuestionBankEntry) (u : Usage) (r : Nat)
    (k lvl : String) (ex : Option String) :
    (∀ k', k' ≠ (k, lvl) →
        (get_next_question_from_bank bank u r k lvl ex).2 k' = u k') ∧
      ((get_next_question_from_bank bank u r k lvl ex).2 (k, lvl) = u (k, lvl) ∨
        (get_next_question_from_bank bank u r k lvl ex).2 (k, lvl) = [] ∨
        ∃ i, (get_next_question_from_bank bank u r k lvl ex).2 (k, lvl) = u (k, lvl) ++ [i] ∨
          (get_next_question_from_bank bank u r k lvl ex).2 (k, lvl) = [i]) := by
  rcases getNext_usage_shape bank u r k lvl ex with h | ⟨v, hv, hcase⟩
  · rw [h]
    exact ⟨fun _ _ => rfl, Or.inl rfl⟩
  · rw [hv]
    constructor
    · intro k' hk'
      simp [updateUsage, hk']
    · have hkey : updateUsage u (k, lvl) v (k, lvl) = v := by simp [updateUsage]
      rw [hkey]
      rcases hcase with h | h | ⟨i, h | h⟩
      · exact Or.inl h
      · exact Or.inr (Or.inl h)
      · exact Or.inr (Or.inr ⟨i, Or.inl h⟩)
      · exact Or.inr (Or.inr ⟨i, Or.inr h⟩)

/-- Witness for C10 hypotheses at a concrete input: the history of a
different key is untouched by a call. -/
theorem C10_witness :
    (get_next_question_from_bank bankPair emptyUsage 0 "python" "intermediate" none).2
      ("sql", "intermediate") = emptyUsage ("sql", "intermediate") :=
  (C10_usage_frame bankPair emptyUsage 0 "python" "intermediate" none).1
    ("sql", "intermediate") (by decide)

/-- C8: for every extracted text of fewer than 10 characters after stripping,
`analyze` returns exactly `{skills: [], questions: []}`, for every bank,
every oracle outcome and every usage state (hence deterministically), and
the usage state is untouched. -/
theorem C8_short_text_empty_result (bank : List QuestionBankEntry) (useOllama : Bool)
    (aiDetected : List DetectedSkillR) (aiLevel : String → Option String)
    (aiQuestions : List GenQuestion) (sol : String → String → String → Option String)
    (ρ : Nat → Nat) (u : Usage) (text : List Char) (jobRole : Option String)
    (h : (pyStrip text).length < 10) :
    analyze bank useOllama aiDetected aiLevel aiQuestions sol ρ u text jobRole
      = (⟨[], []⟩, u) := by
  rw [analyze, if_pos (Or.inr h)]

/-- Witness for C8 at a concrete input. -/
theorem C8_witness :
    analyze bankPair false [] (fun _ => none) [] noSolution (fun _ => 0) emptyUsage
      "  péu  ".toList none = (⟨[], []⟩, emptyUsage) :=
  C8_short_text_empty_result bankPair false [] (fun _ => none) [] noSolution
    (fun _ => 0) emptyUsage "  péu  ".toList none (by decide)

/-- The first backfill loop only appends questions. -/
theorem gqLoop1_length_mono (bank : List QuestionBankEntry) (uo : Bool)
    (sol : String → String → String → Option String) (ρ : Nat → Nat) :
    ∀ (l : List DetectedSkillR) (st : List GenQuestion × List String × Usage × Nat),
      st.1.length ≤ (gqLoop1 bank uo sol ρ l st).1.length := by
  intro l
  induction l with
  | nil => intro st; simp [gqLoop1]
  | cons s rest ih =>
    intro st
    obtain ⟨qs, sw, u, t⟩ := st
    rw [gqLoop1]
    by_cases h5 : 5 ≤ qs.length
    · rw [if_pos h5]
    · rw [if_neg h5]
      by_cases hsw : sw.contains s.key
      · rw [if_pos hsw]
        exact ih _
      · rw [if_neg hsw]
        by_cases hbk : (bankLookup bank s.key).isSome = false
        · rw [if_pos hbk]
          exact ih _
        · rw [if_neg hbk]
          rcases hgn : get_next_question_from_bank bank u (ρ t) s.key s.level none
            with ⟨oq, u'⟩
          cases oq with
          | some qt =>
            show (qs, sw, u, t).1.length ≤
              (if qt.isEmpty = true then gqLoop1 bank uo sol ρ rest (qs, sw, u', t + 1)
               else gqLoop1 bank uo sol ρ rest
                 (qs ++ [⟨s.key, s.level, qt,
                   if uo then sol qt s.key s.level else none⟩],
                  sw ++ [s.key], u', t + 1)).1.length
            by_cases hqt : qt.isEmpty = true
            · rw [if_pos hqt]
              exact ih (qs, sw, u', t + 1)
            · rw [if_neg hqt]
              refine le_trans ?_
                (ih (qs ++ [⟨s.key, s.level, qt,
                  if uo then sol qt s.key s.level else none⟩], sw ++ [s.key], u', t + 1))
              simp
          | none =>
            exact ih (qs, sw, u', t + 1)

/-- The second backfill loop only appends questions. -/
theorem gqLoop2_length_mono (bank : List QuestionBankEntry) (uo : Bool)
    (sol : String → String → String → Option String) (ρ : Nat → Nat) :
    ∀ (l : List DetectedSkillR) (st : List GenQuestion × List String × Usage × Nat),
      st.1.length ≤ (gqLoop2 bank uo sol ρ l st).1.length := by
  intro l
  induction l with
  | nil => intro st; simp [gqLoop2]
  | cons s rest ih =>
    intro st
    obtain ⟨qs, sw, u, t⟩ := st
    rw [gqLoop2]
    by_cases h3 : 3 ≤ qs.length
    · rw [if_pos h3]
    · rw [if_neg h3]
      by_cases hbk : (bankLookup bank s.key).isSome = false
      · rw [if_pos hbk]
        exact ih _
      · rw [if_neg hbk]
        by_cases hsw : sw.contains s.key
        · rw [if_pos hsw]
          exact ih _
        · rw [if_neg hsw]
          rcases hgn : get_next_question_from_bank bank u (ρ t) s.key "intermediate" none
            with ⟨oq, u'⟩
          cases oq with
          | some qt =>
            show (qs, sw, u, t).1.length ≤
              (if qt.isEmpty = true then gqLoop2 bank uo sol ρ rest (qs, sw, u', t + 1)
               else gqLoop2 bank uo sol ρ rest
                 (qs ++ [⟨s.key, "intermediate", qt,
                   if uo then sol qt s.key "intermediate" else none⟩],
                  sw ++ [s.key], u', t + 1)).1.length
            by_cases hqt : qt.isEmpty = true
            · rw [if_pos hqt]
              exact ih (qs, sw, u', t + 1)
            · rw [if_neg hqt]
              refine le_trans ?_
                (ih (qs ++ [⟨s.key, "intermediate", qt,
                  if uo then sol qt s.key "intermediate" else none⟩], sw ++ [s.key], u', t + 1))
              simp
          | none =>
            exact ih (qs, sw, u', t + 1)

/-- The first backfill loop produces a non-empty list when some listed skill
has a non-empty bank list, none of whose questions is the empty string, at
its level (or the accumulator is already non-empty).  The non-empty-string
condition matters because Python's `if question_text:` drops a falsy (empty)
question.  The invariant `qs = [] → sw = []` holds at the entry point
because `skills_with_questions` starts as the skills of the questions. -/
theorem gqLoop1_ne_nil (bank : List QuestionBankEntry) (uo : Bool)
    (sol : String → String → String → Option String) (ρ : Nat → Nat) :
    ∀ (l : List DetectedSkillR) (qs : List GenQuestion) (sw : List String)
      (u : Usage) (t : Nat),
      (qs = [] → sw = []) →
      ((∃ s ∈ l, bankQuestions bank s.key s.level ≠ [] ∧
          ∀ q ∈ bankQuestions bank s.key s.level, q ≠ "") ∨ qs ≠ []) →
      (gqLoop1 bank uo sol ρ l (qs, sw, u, t)).1 ≠ [] := by
  intro l
  induction l with
  | nil =>
    intro qs sw u t hinv hcase
    rcases hcase with ⟨s, hs, -⟩ | hne
    · simp at hs
    · simpa [gqLoop1] using hne
  | cons s rest ih =>
    intro qs sw u t hinv hcase
    rw [gqLoop1]
    by_cases h5 : 5 ≤ qs.length
    · rw [if_pos h5]
      intro hnil
      have hnil' : qs = [] := hnil
      rw [hnil'] at h5
      simp at h5
    · rw [if_neg h5]
      by_cases hsw : sw.contains s.key
      · rw [if_pos hsw]
        apply ih _ _ _ _ hinv
        right
        intro hnil
        rw [hinv hnil] at hsw
        simp at hsw
      · rw [if_neg hsw]
        by_cases hbk : (bankLookup bank s.key).isSome = false
        · rw [if_pos hbk]
          apply ih _ _ _ _ hinv
          rcases hcase with ⟨s', hs', hbq, hall⟩ | hne
          · rcases List.mem_cons.mp hs' with rfl | hmem
            · exfalso
              apply hbq
              unfold bankQuestions
              cases hlk : bankLookup bank s'.key with
              | none => rfl
              | some e =>
                rw [hlk] at hbk
                simp at hbk
            · exact Or.inl ⟨s', hmem, hbq, hall⟩
          · exact Or.inr hne
        · rw [if_neg hbk]
          rcases hgn : get_next_question_from_bank bank u (ρ t) s.key s.level none
            with ⟨oq, u'⟩
          cases oq with
          | some qt =>
            show (if qt.isEmpty = true then gqLoop1 bank uo sol ρ rest (qs, sw, u', t + 1)
              else gqLoop1 bank uo sol ρ rest
                (qs ++ [⟨s.key, s.level, qt,
                  if uo then sol qt s.key s.level else none⟩],
                 sw ++ [s.key], u', t + 1)).1 ≠ []
            by_cases hqt : qt.isEmpty = true
            · rw [if_pos hqt]
              rcases hcase with ⟨s', hs', hbq, hall⟩ | hne
              · rcases List.mem_cons.mp hs' with rfl | hmem
                · exfalso
                  obtain ⟨q, hq1, hq2⟩ := getNext_some_mem u (ρ t) none hbq
                  rw [hgn] at hq1
                  have hqq : qt = q := by simpa using hq1
                  apply hall q hq2
                  rw [← hqq]
                  exact (String.isEmpty_iff qt).mp hqt
                · exact ih _ _ _ _ hinv (Or.inl ⟨s', hmem, hbq, hall⟩)
              · exact ih _ _ _ _ hinv (Or.inr hne)
            · rw [if_neg hqt]
              apply ih _ _ _ _ (fun hnil => absurd hnil (by simp))
              right
              simp
          | none =>
            apply ih _ _ _ _ hinv
            rcases hcase with ⟨s', hs', hbq, hall⟩ | hne
            · rcases List.mem_cons.mp hs' with rfl | hmem
              · exfalso
                obtain ⟨q, hq1, -⟩ := getNext_some_mem u (ρ t) none hbq
                rw [hgn] at hq1
                simp at hq1
              · exact Or.inl ⟨s', hmem, hbq, hall⟩
            · exact Or.inr hne

/-- Zeta-reduced unfolding of `gqCore`. -/
theorem gqCore_eq (bank : List QuestionBankEntry) (uo : Bool)
    (sol : String → String → String → Option String) (ρ : Nat → Nat)
    (u : Usage) (detected : List DetectedSkillR) (ai : List GenQuestion) :
    gqCore bank uo sol ρ u detected ai =
      if 5 ≤ ai.length then (ai.take 5, u)
      else
        ((if (gqLoop1 bank uo sol ρ detected (ai, ai.map (fun q => q.skill), u, 0)).1.length < 3
            then gqLoop2 bank uo sol ρ detected
              (gqLoop1 bank uo sol ρ detected (ai, ai.map (fun q => q.skill), u, 0))
            else gqLoop1 bank uo sol ρ detected
              (ai, ai.map (fun q => q.skill), u, 0)).1.take 5,
          (if (gqLoop1 bank uo sol ρ detected (ai, ai.map (fun q => q.skill), u, 0)).1.length < 3
            then gqLoop2 bank uo sol ρ detected
              (gqLoop1 bank uo sol ρ detected (ai, ai.map (fun q => q.skill), u, 0))
            else gqLoop1 bank uo sol ρ detected
              (ai, ai.map (fun q => q.skill), u, 0)).2.2.1) := rfl

/-- C1 (amended): every run of `generate_questions` returns between 0 and 5
questions, and returns at least 1 question whenever at least one detected
skill maps to a non-empty question list, none of whose questions is the
empty string, in the bank at its detected level.  (The original bound
"at least 3" fails, see the counterexample; the no-empty-string condition
is needed because `if question_text:` drops a falsy selected question.) -/
theorem C1_length_bounds (bank : List QuestionBankEntry) (useOllama hasResume : Bool)
    (aiQuestions : List GenQuestion) (sol : String → String → String → Option String)
    (ρ : Nat → Nat) (u : Usage) (detected : List DetectedSkillR) :
    (generate_questions bank useOllama hasResume aiQuestions sol ρ u detected).1.length ≤ 5 ∧
      ((∃ s ∈ detected, bankQuestions bank s.key s.level ≠ [] ∧
          ∀ q ∈ bankQuestions bank s.key s.level, q ≠ "") →
        1 ≤ (generate_questions bank useOllama hasResume aiQuestions sol ρ u
          detected).1.length) := by
  rw [generate_questions]
  set ai := if useOllama && hasResume then aiQuestions else [] with hai
  rw [gqCore_eq]
  by_cases h5 : 5 ≤ ai.length
  · rw [if_pos h5]
    refine ⟨?_, fun _ => ?_⟩
    · show (ai.take 5).length ≤ 5
      rw [List.length_take]
      omega
    · show 1 ≤ (ai.take 5).length
      rw [List.length_take]
      omega
  · rw [if_neg h5]
    set st₁ := gqLoop1 bank useOllama sol ρ detected (ai, ai.map (fun q => q.skill), u, 0)
      with hst₁
    refine ⟨?_, fun hex => ?_⟩
    · show ((if st₁.1.length < 3 then gqLoop2 bank useOllama sol ρ detected st₁
          else st₁).1.take 5).length ≤ 5
      rw [List.length_take]
      omega
    · obtain ⟨s, hs, hbq, hall⟩ := hex
      have h1 : st₁.1 ≠ [] := by
        rw [hst₁]
        exact gqLoop1_ne_nil bank useOllama sol ρ detected ai _ u 0
          (fun hnil => by rw [hnil]; rfl) (Or.inl ⟨s, hs, hbq, hall⟩)
      have hpos : 1 ≤ st₁.1.length := List.length_pos.mpr h1
      show 1 ≤ ((if st₁.1.length < 3 then gqLoop2 bank useOllama sol ρ detected st₁
          else st₁).1.take 5).length
      by_cases h3 : st₁.1.length < 3
      · rw [if_pos h3]
        have hmono := gqLoop2_length_mono bank useOllama sol ρ detected st₁
        rw [List.length_take]
        omega
      · rw [if_neg h3]
        rw [List.length_take]
        omega

/-- Witness for C1: at a concrete input with a skill backed by a non-empty
bank list, both bounds of the amended claim hold. -/
theorem C1_witness :
    (generate_questions bankPair false false [] noSolution (fun _ => 0) emptyUsage
        detectedSingle).1.length ≤ 5 ∧
      1 ≤ (generate_questions bankPair false false [] noSolution (fun _ => 0) emptyUsage
        detectedSingle).1.length :=
  ⟨(C1_length_bounds bankPair false false [] noSolution (fun _ => 0) emptyUsage
      detectedSingle).1,
   (C1_length_bounds bankPair false false [] noSolution (fun _ => 0) emptyUsage
      detectedSingle).2 (by decide)⟩

/-- C1 counterexample: one detected skill whose level list in the bank is
non-empty, yet the run returns exactly 1 question, violating the claimed
"length ≥ 3 whenever at least one detected skill maps to a non-empty
question list in the bank". -/
theorem C1_counterexample :
    bankQuestions bankPair "python" "intermediate" ≠ [] ∧
      detectedSingle = [⟨"python", "Python", "python", "intermediate"⟩] ∧
      (generate_questions bankPair false false [] noSolution (fun _ => 0) emptyUsage
        detectedSingle).1.length = 1 := by
  refine ⟨by decide, rfl, ?_⟩
  rfl

set_option maxHeartbeats 1600000 in
/-- C3: with the AI path disabled, on the 2-entry bank
`{python: {beginner:["Q1"], intermediate:["Q2","Q3"]}, sql: {intermediate:["Q4"]}}`
and detected skills `[python/intermediate, sql/intermediate]`,
`generate_questions` returns exactly 2 questions, one per skill in detection
order, the python question drawn from `["Q2","Q3"]` and the sql question
`"Q4"`, with no skill appearing twice — for every random outcome `ρ` and
every solution oracle. -/
theorem C3_end_to_end (ρ : Nat → Nat) (sol : String → String → String → Option String) :
    ∃ q, q ∈ ["Q2", "Q3"] ∧
      (generate_questions bankPair false false [] sol ρ emptyUsage detectedPair).1 =
        [⟨"python", "intermediate", q, none⟩, ⟨"sql", "intermediate", "Q4", none⟩] := by
  have hsql : ∀ (u : Usage), u ("sql", "intermediate") = [] →
      ∀ r, get_next_question_from_bank bankPair u r "sql" "intermediate" none =
        (some "Q4", updateUsage u ("sql", "intermediate") [0]) := by
    intro u hu r
    simp [get_next_question_from_bank, bankLookup, dictGet, bankPair, pyEnum, pyEnumFrom,
      lastN, excludeHit, hu, Nat.mod_one]
  have hu1 : ∀ i, (updateUsage emptyUsage ("python", "intermediate") [i])
      ("sql", "intermediate") = [] := fun _ => rfl
  rcases Nat.mod_two_eq_zero_or_one (ρ 0) with h | h
  · have hpy : get_next_question_from_bank bankPair emptyUsage (ρ 0) "python" "intermediate"
        none = (some "Q2", updateUsage emptyUsage ("python", "intermediate") [0]) := by
      simp [get_next_question_from_bank, bankLookup, dictGet, bankPair, pyEnum, pyEnumFrom,
        lastN, excludeHit, emptyUsage, h]
    have stepA : gqLoop1 bankPair false sol ρ detectedPair ([], [], emptyUsage, 0) =
        gqLoop1 bankPair false sol ρ [⟨"sql", "SQL", "sql", "intermediate"⟩]
          ([⟨"python", "intermediate", "Q2", none⟩], ["python"],
            updateUsage emptyUsage ("python", "intermediate") [0], 1) := by
      show gqLoop1 bankPair false sol ρ
          (⟨"python", "Python", "python", "intermediate"⟩ ::
            [⟨"sql", "SQL", "sql", "intermediate"⟩]) ([], [], emptyUsage, 0) = _
      rw [gqLoop1, hpy]
      rfl
    have stepB : gqLoop1 bankPair false sol ρ [⟨"sql", "SQL", "sql", "intermediate"⟩]
        ([⟨"python", "intermediate", "Q2", none⟩], ["python"],
          updateUsage emptyUsage ("python", "intermediate") [0], 1) =
        ([⟨"python", "intermediate", "Q2", none⟩, ⟨"sql", "intermediate", "Q4", none⟩],
          ["python", "sql"],
          updateUsage (updateUsage emptyUsage ("python", "intermediate") [0])
            ("sql", "intermediate") [0], 2) := by
      rw [gqLoop1, hsql _ (hu1 0) (ρ 1)]
      rfl
    refine ⟨"Q2", by simp, ?_⟩
    show (gqCore bankPair false sol ρ emptyUsage detectedPair []).1 =
      [⟨"python", "intermediate", "Q2", none⟩, ⟨"sql", "intermediate", "Q4", none⟩]
    rw [gqCore_eq, if_neg (by decide : ¬ 5 ≤ ([] : List GenQuestion).length),
      show List.map (fun q : GenQuestion => q.skill) ([] : List GenQuestion) =
        ([] : List String) from rfl, stepA, stepB]
    rfl
  · have hpy : get_next_question_from_bank bankPair emptyUsage (ρ 0) "python" "intermediate"
        none = (some "Q3", updateUsage emptyUsage ("python", "intermediate") [1]) := by
      simp [get_next_question_from_bank, bankLookup, dictGet, bankPair, pyEnum, pyEnumFrom,
        lastN, excludeHit, emptyUsage, h]
    have stepA : gqLoop1 bankPair false sol ρ detectedPair ([], [], emptyUsage, 0) =
        gqLoop1 bankPair false sol ρ [⟨"sql", "SQL", "sql", "intermediate"⟩]
          ([⟨"python", "intermediate", "Q3", none⟩], ["python"],
            updateUsage emptyUsage ("python", "intermediate") [1], 1) := by
      show gqLoop1 bankPair false sol ρ
          (⟨"python", "Python", "python", "intermediate"⟩ ::
            [⟨"sql", "SQL", "sql", "intermediate"⟩]) ([], [], emptyUsage, 0) = _
      rw [gqLoop1, hpy]
      rfl
    have stepB : gqLoop1 bankPair false sol ρ [⟨"sql", "SQL", "sql", "intermediate"⟩]
        ([⟨"python", "intermediate", "Q3", none⟩], ["python"],
          updateUsage emptyUsage ("python", "intermediate") [1], 1) =
        ([⟨"python", "intermediate", "Q3", none⟩, ⟨"sql", "intermediate", "Q4", none⟩],
          ["python", "sql"],
          updateUsage (updateUsage emptyUsage ("python", "intermediate") [1])
            ("sql", "intermediate") [0], 2) := by
      rw [gqLoop1, hsql _ (hu1 1) (ρ 1)]
      rfl
    refine ⟨"Q3", by simp, ?_⟩
    show (gqCore bankPair false sol ρ emptyUsage detectedPair []).1 =
      [⟨"python", "intermediate", "Q3", none⟩, ⟨"sql", "intermediate", "Q4", none⟩]
    rw [gqCore_eq, if_neg (by decide : ¬ 5 ≤ ([] : List GenQuestion).length),
      show List.map (fun q : GenQuestion => q.skill) ([] : List GenQuestion) =
        ([] : List String) from rfl, stepA, stepB]
    rfl

/-- The fallback detection loop never removes records. -/
theorem fallbackDetect_mem_mono (bank : List QuestionBankEntry) (nt : List Char) :
    ∀ (vl : List (String × String)) (acc : List DetectedSkillR) (x : DetectedSkillR),
      x ∈ acc → x ∈ fallbackDetect bank nt vl acc := by
  intro vl
  induction vl with
  | nil =>
    intro acc x hx
    simpa [fallbackDetect] using hx
  | cons p rest ih =>
    intro acc x hx
    obtain ⟨variant, key⟩ := p
    rw [fallbackDetect]
    by_cases hin : isSubstring variant.toList nt = true
    · rw [if_pos hin]
      by_cases hany : acc.any (fun s => s.key == key) = true
      · rw [if_pos hany]
        exact ih _ _ hx
      · rw [if_neg hany]
        exact ih _ _ (List.mem_append_left _ hx)
    · rw [if_neg hin]
      exact ih _ _ hx

/-- After the loop has processed a vocabulary pair whose variant occurs in
the normalized text, some record with that canonical key is present. -/
theorem fallbackDetect_key_mem (bank : List QuestionBankEntry) (nt : List Char) :
    ∀ (vl : List (String × String)) (acc : List DetectedSkillR) (variant key : String),
      (variant, key) ∈ vl → isSubstring variant.toList nt = true →
      ∃ x ∈ fallbackDetect bank nt vl acc, x.key = key := by
  intro vl
  induction vl with
  | nil =>
    intro acc v k h _
    simp at h
  | cons p rest ih =>
    intro acc v k hmem hsub
    rcases List.mem_cons.mp hmem with heq | hmem'
    · obtain ⟨pv, pk⟩ := p
      injection heq with h1 h2
      subst h1
      subst h2
      rw [fallbackDetect, if_pos hsub]
      by_cases hany : acc.any (fun s => s.key == k) = true
      · rw [if_pos hany]
        obtain ⟨x, hx, hxk⟩ := List.any_eq_true.mp hany
        exact ⟨x, fallbackDetect_mem_mono bank nt rest acc x hx, by simpa using hxk⟩
      · rw [if_neg hany]
        refine ⟨⟨k, (match bank.find? (fun e => e.skill == k) with
            | some e => e.displayName
            | none => pyCapitalize k), v, ""⟩,
          fallbackDetect_mem_mono bank nt rest _ _ (by simp), rfl⟩
    · obtain ⟨pv, pk⟩ := p
      rw [fallbackDetect]
      by_cases hin : isSubstring pv.toList nt = true
      · rw [if_pos hin]
        by_cases hany : acc.any (fun s => s.key == pk) = true
        · rw [if_pos hany]
          exact ih _ _ _ hmem' hsub
        · rw [if_neg hany]
          exact ih _ _ _ hmem' hsub
      · rw [if_neg hin]
        exact ih _ _ _ hmem' hsub

/-- The fallback detection loop keeps canonical keys pairwise distinct: a key
is only appended when no accumulated record carries it. -/
theorem fallbackDetect_nodup_keys (bank : List QuestionBankEntry) (nt : List Char) :
    ∀ (vl : List (String × String)) (acc : List DetectedSkillR),
      ((acc.map (fun s => s.key)).Nodup) →
      (((fallbackDetect bank nt vl acc).map (fun s => s.key)).Nodup) := by
  intro vl
  induction vl with
  | nil =>
    intro acc h
    simpa [fallbackDetect] using h
  | cons p rest ih =>
    intro acc h
    obtain ⟨pv, pk⟩ := p
    rw [fallbackDetect]
    by_cases hin : isSubstring pv.toList nt = true
    · rw [if_pos hin]
      by_cases hany : acc.any (fun s => s.key == pk) = true
      · rw [if_pos hany]
        exact ih _ h
      · rw [if_neg hany]
        apply ih
        rw [List.map_append]
        have hnotin : pk ∉ acc.map (fun s => s.key) := by
          intro hc
          obtain ⟨x, hx, hxk⟩ := List.mem_map.mp hc
          exact hany (List.any_eq_true.mpr ⟨x, hx, by simp [hxk]⟩)
        simp [List.nodup_append, h, hnotin]
    · rw [if_neg hin]
      exact ih _ h

/-- C7: with the AI path disabled, for every vocabulary pair
`(variant, canonical key)` of the bank's skill vocabulary and every text
whose normalization contains the variant, `detect_skills` includes the
canonical key exactly once in its output, even when several variants map to
the same canonical key. -/
theorem C7_canonical_key_exactly_once (bank : List QuestionBankEntry)
    (aiDetected : List DetectedSkillR) (aiLevel : String → Option String)
    (text : List Char) (variant key : String)
    (hv : (variant, key) ∈ buildVocab bank [])
    (hs : isSubstring variant.toList (normalize_text text) = true) :
    ((detect_skills bank false aiDetected aiLevel text none).map (fun s => s.key)).count key
      = 1 := by
  rw [detect_skills]
  simp only [Bool.false_and, Bool.false_eq_true, if_false]
  rw [applyJobRole]
  have hkeys : ∀ (d : List DetectedSkillR),
      ((d.map (fun s =>
          { s with level := infer_skill_level false aiLevel text s.key s.variant })).map
        (fun s => s.key)) = d.map (fun s => s.key) := by
    intro d
    rw [List.map_map]
    rfl
  rw [hkeys]
  have hnodup := fallbackDetect_nodup_keys bank (normalize_text text)
    (buildVocab bank []) [] (by simp)
  obtain ⟨x, hx, hxk⟩ := fallbackDetect_key_mem bank (normalize_text text)
    (buildVocab bank []) [] variant key hv hs
  have hmem : key ∈ (fallbackDetect bank (normalize_text text)
      (buildVocab bank []) []).map (fun s => s.key) :=
    List.mem_map.mpr ⟨x, hx, hxk⟩
  have hle := List.nodup_iff_count_le_one.mp hnodup key
  have hge := List.count_pos_iff.mpr hmem
  omega

/-- Witness for C7 at a concrete input: the variant `python` occurs in the
normalized text and the key `python` is detected exactly once. -/
theorem C7_witness :
    ((detect_skills bankPair false [] (fun _ => none) "I use  Python daily".toList
        none).map (fun s => s.key)).count "python" = 1 := by
  refine C7_canonical_key_exactly_once bankPair [] (fun _ => none)
    "I use  Python daily".toList "python" "python" ?_ ?_
  · rw [show buildVocab bankPair [] = [("python", "python"), ("python3", "python"),
      ("python 3", "python"), ("sql", "sql")] from rfl]
    simp
  · decide

/-- The lookback window of a history ending in ten equal indices is exactly
those ten indices. -/
theorem lastN_append_replicate (b : List Nat) (i : Nat) :
    lastN (b ++ List.replicate 10 i) 10 = List.replicate 10 i := by
  rw [lastN, List.length_append, List.length_replicate]
  rw [show b.length + 10 - 10 = b.length from by omega]
  exact List.drop_left b _

/-- With no exclusion and at least two pool questions, a selection call always
takes the random branch: it returns some in-range index' question whose
recent-use count is below the window size, and appends that index. -/
theorem getNext_char_none (bank : List QuestionBankEntry) {k lvl : String}
    {e : QuestionBankEntry} {qs : List String}
    (h1 : bankLookup bank k = some e) (h2 : dictGet e.levels lvl [] = qs)
    (h3 : 2 ≤ qs.length) (u : Usage) (r : Nat) :
    ∃ i, i < qs.length ∧ (lastN (u (k, lvl)) 10).count i < 10 ∧
      get_next_question_from_bank bank u r k lvl none =
        (some (qs.getD i ""), updateUsage u (k, lvl) (u (k, lvl) ++ [i])) := by
  have hne : qs ≠ [] := by
    intro hcon
    rw [hcon] at h3
    simp at h3
  simp only [get_next_question_from_bank, h1, h2]
  rw [if_neg hne]
  set P₁ : Nat × String → Bool := fun p => !excludeHit none p.2 &&
    decide ((lastN (u (k, lvl)) 10).count p.1 < 10) with hP₁
  have hA : (pyEnum qs).filter P₁ ≠ [] := by
    intro hcon
    rw [List.filter_eq_nil_iff] at hcon
    have h0 : (0, qs.getD 0 "") ∈ pyEnum qs := by
      have := pyEnumFrom_mem "" (l := qs) (j := 0) 0 (by omega)
      simpa using this
    have h1' : (1, qs.getD 1 "") ∈ pyEnum qs := by
      have := pyEnumFrom_mem "" (l := qs) (j := 1) 0 (by omega)
      simpa using this
    have hc0 := hcon _ h0
    have hc1 := hcon _ h1'
    rw [hP₁] at hc0 hc1
    simp [excludeHit] at hc0 hc1
    have hlen := lastN_length_le (u (k, lvl)) 10
    have hcc := count_add_count_le_length (show (0 : Nat) ≠ 1 by omega)
      (lastN (u (k, lvl)) 10)
    omega
  rw [if_neg hA, if_pos hA, if_neg (fun hcon => hA hcon.1)]
  have hlen : 0 < ((pyEnum qs).filter P₁).length := List.length_pos.mpr hA
  have hmod : r % ((pyEnum qs).filter P₁).length < ((pyEnum qs).filter P₁).length :=
    Nat.mod_lt _ hlen
  set chosen := ((pyEnum qs).filter P₁).getD (r % ((pyEnum qs).filter P₁).length) (0, "")
    with hch
  have hmem : chosen ∈ (pyEnum qs).filter P₁ := getD_mem_of_lt _ hmod
  obtain ⟨hin, hpred⟩ := List.mem_filter.mp hmem
  obtain ⟨j, hj, hidx, hval⟩ := mem_pyEnumFrom "" hin
  have hq : qs.getD chosen.1 "" = chosen.2 := by
    rw [hidx, Nat.zero_add]
    exact hval.symm
  have hcnt : (lastN (u (k, lvl)) 10).count chosen.1 < 10 := by
    rw [hP₁] at hpred
    simp [excludeHit] at hpred
    exact hpred
  refine ⟨chosen.1, ?_, hcnt, ?_⟩
  · rw [hidx, Nat.zero_add]
    exact hj
  · rw [← hq]

/-- Characterisation of a run of consecutive calls from an arbitrary usage
state: the results are the pool questions at a valid index run, and the
indices extend the starting history. -/
theorem runBank_char (bank : List QuestionBankEntry) {k lvl : String}
    {e : QuestionBankEntry} {qs : List String}
    (h1 : bankLookup bank k = some e) (h2 : dictGet e.levels lvl [] = qs)
    (h3 : 2 ≤ qs.length) :
    ∀ (n : Nat) (ρ : Nat → Nat) (u : Usage),
      ∃ is : List Nat,
        (runBank bank k lvl ρ n u).1 = is.map (fun i => some (qs.getD i "")) ∧
          ExtValid qs (u (k, lvl)) is := by
  intro n
  induction n with
  | zero =>
    intro ρ u
    exact ⟨[], rfl, trivial⟩
  | succ m ih =>
    intro ρ u
    obtain ⟨i, hi, hcnt, heq⟩ := getNext_char_none bank h1 h2 h3 u (ρ 0)
    rw [runBank, heq]
    obtain ⟨is, hmap, hval⟩ := ih (fun t => ρ (t + 1))
      (updateUsage u (k, lvl) (u (k, lvl) ++ [i]))
    refine ⟨i :: is, ?_, ?_⟩
    · show some (qs.getD i "") ::
        (runBank bank k lvl (fun t => ρ (t + 1)) m
          (updateUsage u (k, lvl) (u (k, lvl) ++ [i]))).1 = _
      rw [hmap, List.map_cons]
    · refine ⟨hi, hcnt, ?_⟩
      have hu : updateUsage u (k, lvl) (u (k, lvl) ++ [i]) (k, lvl) = u (k, lvl) ++ [i] := by
        simp [updateUsage]
      rwa [hu] at hval

/-- A valid index run cannot begin with `n ≤ 11` copies of `i` when the
history already ends in `11 - n` copies of `i` (the step appending the
eleventh copy would see a window filled by `i`). -/
theorem extValid_repl (qs : List String) (i : Nat) (t : List Nat) :
    ∀ (n : Nat) (base : List Nat), 1 ≤ n → n ≤ 11 →
      ExtValid qs (base ++ List.replicate (11 - n) i) (List.replicate n i ++ t) → False := by
  intro n
  induction n with
  | zero =>
    intro base hge _ _
    omega
  | succ m ihm =>
    intro base hge hle hval
    rw [List.replicate_succ, List.cons_append] at hval
    obtain ⟨-, hcnt, hrest⟩ := hval
    by_cases hm : m = 0
    · subst hm
      rw [show 11 - 1 = 10 from rfl, lastN_append_replicate,
        List.count_replicate_self] at hcnt
      omega
    · apply ihm base (by omega) (by omega)
      have he : (base ++ List.replicate (11 - (m + 1)) i) ++ [i] =
          base ++ List.replicate (11 - m) i := by
        rw [List.append_assoc]
        congr 1
        rw [show 11 - m = (11 - (m + 1)) + 1 from by omega, List.replicate_succ']
      rwa [he] at hrest

/-- A valid index run contains no 11 consecutive equal indices. -/
theorem extValid_no_eleven (qs : List String) :
    ∀ (is : List Nat) (base : List Nat), ExtValid qs base is →
      ∀ i, ¬(List.replicate 11 i <:+: is) := by
  intro is
  induction is with
  | nil =>
    intro base _ i hinf
    have := List.IsInfix.length_le hinf
    simp at this
  | cons a rest ih =>
    intro base hval i hinf
    obtain ⟨-, -, hrest⟩ := hval
    rcases List.infix_cons_iff.mp hinf with hpre | hinf'
    · rw [List.replicate_succ] at hpre
      obtain ⟨ha, hpre'⟩ := List.cons_prefix_cons.mp hpre
      subst ha
      obtain ⟨t, ht⟩ := hpre'
      apply extValid_repl qs i t 10 base (by omega) (by omega)
      rw [show (11 : Nat) - 10 = 1 from rfl, show List.replicate 1 i = [i] from rfl]
      rwa [← ht] at hrest
    · exact ih (base ++ [a]) hrest i hinf'

/-- Splitting a mapped list along an append. -/
theorem map_eq_append_decomp {α β : Type} (f : α → β) :
    ∀ (l : List α) (s t : List β), l.map f = s ++ t →
      ∃ l₁ l₂, l = l₁ ++ l₂ ∧ l₁.map f = s ∧ l₂.map f = t := by
  intro l
  induction l with
  | nil =>
    intro s t h
    rw [List.map_nil] at h
    obtain ⟨hs, ht⟩ := List.append_eq_nil.mp h.symm
    exact ⟨[], [], rfl, by rw [hs]; rfl, by rw [ht]; rfl⟩
  | cons a as ih =>
    intro s t h
    cases s with
    | nil => exact ⟨[], a :: as, rfl, rfl, by simpa using h⟩
    | cons b bs =>
      simp only [List.map_cons, List.cons_append, List.cons.injEq] at h
      obtain ⟨hb, hrest⟩ := h
      obtain ⟨l₁, l₂, rfl, hm1, hm2⟩ := ih bs t hrest
      exact ⟨a :: l₁, l₂, rfl, by simp [hb, hm1], hm2⟩

/-- An infix of a mapped list is the image of an infix. -/
theorem map_infix_decomp {α β : Type} (f : α → β) {l : List β} {is : List α}
    (h : l <:+: is.map f) : ∃ l', l' <:+: is ∧ l = l'.map f := by
  obtain ⟨s, t, hst⟩ := h
  obtain ⟨l₁, l₂₃, rfl, hm1, hm23⟩ := map_eq_append_decomp f is s (l ++ t)
    (by rw [← hst, List.append_assoc])
  obtain ⟨l₂, l₃, rfl, hm2, hm3⟩ := map_eq_append_decomp f l₂₃ l t hm23
  exact ⟨l₂, ⟨l₁, l₃, List.append_assoc l₁ l₂ l₃⟩, hm2.symm⟩

/-- Every index of a valid run is in range. -/
theorem extValid_lt (qs : List String) :
    ∀ (is : List Nat) (base : List Nat), ExtValid qs base is → ∀ x ∈ is, x < qs.length := by
  intro is
  induction is with
  | nil =>
    intro base _ x hx
    simp at hx
  | cons a rest ih =>
    intro base hval x hx
    obtain ⟨ha, -, hrest⟩ := hval
    rcases List.mem_cons.mp hx with rfl | hx'
    · exact ha
    · exact ih (base ++ [a]) hrest x hx'

/-- On a duplicate-free list, `getD` is injective on valid positions. -/
theorem nodup_getD_inj {qs : List String} (hnd : qs.Nodup) {a b : Nat}
    (ha : a < qs.length) (hb : b < qs.length) (h : qs.getD a "" = qs.getD b "") :
    a = b := by
  rw [List.getD_eq_getElem _ _ ha, List.getD_eq_getElem _ _ hb] at h
  exact (List.Nodup.getElem_inj_iff hnd).mp h

/-- C2 (amended): for every sequence of consecutive
`_get_next_question_from_bank` calls for a fixed `(skill, level)` whose bank
pool has at least 3 pairwise-distinct questions, starting from any usage
state, no single question is selected more than 10 times consecutively, for
every outcome of the uniform-random choice among eligible candidates.
(The claimed bound of 4 fails, see the counterexample: a question stays
eligible until it fills the entire 10-selection lookback window.) -/
theorem C2_rotation_bound (bank : List QuestionBankEntry) (k lvl : String)
    (e : QuestionBankEntry) (qs : List String)
    (h1 : bankLookup bank k = some e) (h2 : dictGet e.levels lvl [] = qs)
    (hnd : qs.Nodup) (h3 : 3 ≤ qs.length) (ρ : Nat → Nat) (n : Nat) (u₀ : Usage) :
    ¬∃ q, List.replicate 11 (some q) <:+: (runBank bank k lvl ρ n u₀).1 := by
  rintro ⟨q, hinf⟩
  obtain ⟨is, hmap, hval⟩ := runBank_char bank h1 h2 (by omega) n ρ u₀
  rw [hmap] at hinf
  obtain ⟨l', hl'inf, hl'eq⟩ := map_infix_decomp _ hinf
  have hlen : l'.length = 11 := by
    have := congrArg List.length hl'eq
    simpa using this.symm
  have hall : ∀ x ∈ l', qs.getD x "" = q := by
    intro x hx
    have hmm := List.mem_map_of_mem (fun i => some (qs.getD i "")) hx
    rw [← hl'eq] at hmm
    have := List.eq_of_mem_replicate hmm
    simpa using this
  have hsub : ∀ x ∈ l', x ∈ is := fun x hx => hl'inf.sublist.subset hx
  have hlt : ∀ x ∈ is, x < qs.length := extValid_lt qs is _ hval
  obtain ⟨i0, l'', rfl⟩ : ∃ i0 l'', l' = i0 :: l'' := by
    cases l' with
    | nil => simp at hlen
    | cons a b => exact ⟨a, b, rfl⟩
  have hrep : i0 :: l'' = List.replicate 11 i0 := by
    rw [List.eq_replicate_iff]
    refine ⟨hlen, ?_⟩
    intro b hb
    have hbq := hall b hb
    have h0q := hall i0 (by simp)
    exact nodup_getD_inj hnd (hlt b (hsub b hb)) (hlt i0 (hsub i0 (by simp)))
      (hbq.trans h0q.symm)
  rw [hrep] at hl'inf
  exact extValid_no_eleven qs is _ hval i0 hl'inf

/-- C2 counterexample: on the 3-question pool `["QA","QB","QC"]` there is an
outcome of the random choice under which the first five consecutive
selections are all `"QA"` — one question selected more than 4 times
consecutively. -/
theorem C2_counterexample :
    bankQuestions bankRot "python" "intermediate" = ["QA", "QB", "QC"] ∧
      (runBank bankRot "python" "intermediate" (fun _ => 0) 5 emptyUsage).1 =
        List.replicate 5 (some "QA") :=
  ⟨rfl, rfl⟩

/-- Witness for C2 at a concrete input: a 12-call run on the 3-question pool
never selects one question 11 times consecutively. -/
theorem C2_witness :
    ¬∃ q, List.replicate 11 (some q) <:+:
      (runBank bankRot "python" "intermediate" (fun _ => 0) 12 emptyUsage).1 :=
  C2_rotation_bound bankRot "python" "intermediate"
    ⟨"python", "Python", [("intermediate", ["QA", "QB", "QC"])]⟩ ["QA", "QB", "QC"]
    rfl rfl (by decide) (by decide) (fun _ => 0) 12 emptyUsage

/-- C6: evaluation of the code at the failing input.  On the canonical
single-quoted malformed object
`{'skill': 'python', 'level': 'beginner', 'question': 'What is a list comprehension?'}`
`_parse_json_from_response` returns `None`: strategy 1's `json.loads`
rejects single quotes, strategy 2 finds no `[...]` span, and the
object/field regexes of strategies 3 and 4 demand double-quoted
`"skill"`/`"level"`/`"question"` keys, so the per-object single-quote repair
they would apply is unreachable for exactly the keys that matter.  The
claimed recovery of a single-quoted object therefore never happens. -/
theorem C6_single_quoted_object_not_recovered :
    parse_json_from_response c6FailingInput = none := rfl
